import Mathlib

/-!
Verification of the cri-containerd container-creation / streaming core and the
cri-tools sandbox store, as a shallow embedding in Lean 4.

The Go sources embedded here:
  - `pkg/server/container_create.go` (spec compiler: process args, envs,
    capabilities, bind mounts, privileged branch, seccomp option generation);
  - `pkg/server/streaming.go` (terminal resize handling);
  - the sandbox `Store` (prefix-addressable entity registry).

Go slices are `List`, Go `nil`-vs-empty distinctions that the code tests are
`Option (List _)`, Go error returns are `Except`, and host-side collaborators
(filesystem, mount table, device resolution) are explicit function parameters.
-/

set_option autoImplicit false

namespace CriModel

/-! ## String helpers (Go `strings` package operations used by the source) -/

/-- Boolean prefix test on char lists; `chPfx p s` holds when `p` is a prefix
of `s`. -/
def chPfx : List Char → List Char → Bool
  | [], _ => true
  | _ :: _, [] => false
  | a :: as, b :: bs => a = b && chPfx as bs

/-- Go `strings.HasPrefix s p`. -/
def goHasPfx (s p : String) : Bool := chPfx p.data s.data

/-- Go `strings.TrimPrefix s p`: drops `p` from the front of `s` when present. -/
def goTrimPfx (s p : String) : String :=
  if goHasPfx s p then ⟨s.data.drop p.data.length⟩ else s

/-- Go `strings.ToUpper` (per-character uppercasing). -/
def goToUpper (s : String) : String := ⟨s.data.map Char.toUpper⟩

/-- Go `strings.SplitN e "=" 2`: when `e` contains `'='`, the part before the
first `'='` and the part after it; `none` when `e` has no `'='`
(the `len(kv) != 2` case in the source). -/
def splitEq2 (e : String) : Option (String × String) :=
  if e.data.contains '=' then
    some (⟨e.data.takeWhile (· ≠ '=')⟩, ⟨(e.data.dropWhile (· ≠ '=')).drop 1⟩)
  else none

/-- Splitting a char list on a separator char; consecutive separators yield
empty fields and the empty input yields one empty field, as in Go. -/
def splitChar (c : Char) : List Char → List (List Char)
  | [] => [[]]
  | a :: rest =>
    match splitChar c rest with
    | [] => [[]]
    | w :: ws => if a = c then [] :: w :: ws else (a :: w) :: ws

/-- Go `strings.Split s " "` (split on the single-space separator). -/
def goSplitSpace (s : String) : List String :=
  (splitChar ' ' s.data).map (fun l => String.mk l)

/-! ## Streaming: `handleResizing` (`pkg/server/streaming.go`)

The resize channel is modelled as the trace of receive events the goroutine
observes: a sequence of delivered sizes, optionally ending in a close. -/

/-- `remotecommand.TerminalSize` (uint16 fields, embedded as `Nat`). -/
structure TerminalSize where
  Width : Nat
  Height : Nat
deriving DecidableEq, Repr

/-- One event observed on the resize channel: a delivered size, or the channel
being closed by the caller (`ok == false` on receive). -/
inductive ChanEvent where
  | recv (s : TerminalSize)
  | closed
deriving DecidableEq, Repr

/-- The body of the goroutine spawned by `handleResizing`: receive in a loop,
return when the channel is closed, skip sizes with `Height < 1 || Width < 1`,
otherwise invoke the callback.  Returns the list of callback invocations in
order, and whether the loop has returned (`true` exactly when a close event
was consumed; on a trace with no close the loop is still blocked receiving). -/
def resizeLoop : List ChanEvent → List TerminalSize × Bool
  | [] => ([], false)
  | ChanEvent.closed :: _ => ([], true)
  | ChanEvent.recv s :: rest =>
    let r := resizeLoop rest
    (if s.Height < 1 || s.Width < 1 then r.1 else s :: r.1, r.2)

/-- `handleResizing(resize, resizeFunc)`: with a nil channel it returns at once
without spawning the goroutine (`none`); otherwise the spawned goroutine's
outcome on the channel trace. -/
def handleResizing (resize : Option (List ChanEvent)) :
    Option (List TerminalSize × Bool) :=
  match resize with
  | none => none
  | some evs => some (resizeLoop evs)

/-- The callback invocations `handleResizing` performs on a given channel. -/
def resizeCalls (resize : Option (List ChanEvent)) : List TerminalSize :=
  match handleResizing resize with
  | none => []
  | some r => r.1

/-- A size is delivered to the callback iff both dimensions are ≥ 1. -/
def sizeOk (s : TerminalSize) : Bool := 1 ≤ s.Height && 1 ≤ s.Width

/-! ## Seccomp option generation (`generateSeccompSpecOpts`) -/

/-- `localhost/`, the profile-name namespace for local profiles. -/
def profileNamePfx : String := "localhost/"

/-- `runtime/default`. -/
def runtimeDefault : String := "runtime/default"

/-- `docker/default`. -/
def dockerDefault : String := "docker/default"

/-- `unconfined`. -/
def unconfinedProfile : String := "unconfined"

/-- The default seccomp profile name (`seccompDefaultProfile = dockerDefault`). -/
def seccompDefaultProfile : String := dockerDefault

/-- A containerd `SpecOpts` produced for seccomp: the built-in default profile,
or a named local profile. -/
inductive SeccompOpt where
  | withDefaultProfile
  | withProfile (name : String)
deriving DecidableEq, Repr

/-- `generateSeccompSpecOpts(seccompProf, privileged, seccompEnabled)`:
`.ok none` means "no spec opts, no error". -/
def generateSeccompSpecOpts (seccompProf : String) (privileged seccompEnabled : Bool) :
    Except String (Option SeccompOpt) :=
  if privileged then
    -- Do not set seccomp profile when container is privileged
    Except.ok none
  else
    let seccompProf :=
      if seccompProf = runtimeDefault ∨ seccompProf = dockerDefault then
        seccompDefaultProfile
      else seccompProf
    if !seccompEnabled then
      if seccompProf ≠ "" ∧ seccompProf ≠ unconfinedProfile then
        Except.error "seccomp is not supported"
      else
        Except.ok none
    else if seccompProf = "" ∨ seccompProf = unconfinedProfile then
      Except.ok none
    else if seccompProf = dockerDefault then
      Except.ok (some SeccompOpt.withDefaultProfile)
    else if goHasPfx seccompProf profileNamePfx then
      Except.ok (some (SeccompOpt.withProfile (goTrimPfx seccompProf profileNamePfx)))
    else
      Except.error ("invalid seccomp profile " ++ seccompProf)

/-! ## EntityStore (the sandbox `Store`, keyed by full ID with a trunc index)

The store holds a Go map from full ID to entity (embedded as an association
list) plus the ID set registered in the truncated-prefix index. -/

/-- First-match association lookup (`s.sandboxes[id]`). -/
def mapLookup {α : Type} (m : List (String × α)) (k : String) : Option α :=
  (m.find? (fun kv => kv.1 = k)).map Prod.snd

/-- Go `delete(s.sandboxes, id)`. -/
def mapDelete {α : Type} (m : List (String × α)) (k : String) : List (String × α) :=
  m.filter (fun kv => kv.1 ≠ k)

/-- Modelled from the spec: the vendored docker `truncindex.TruncIndex.Get` is
not under src/ (only its caller, the store, is).  Per the spec, "an abbreviated
ID resolves if and only if exactly one stored ID has it as a prefix; zero
matches is 'not found', more than one is 'ambiguous — also not found'". -/
def truncGet (ids : List String) (idOrPfx : String) : Option String :=
  match ids.filter (fun i => goHasPfx i idOrPfx) with
  | [i] => some i
  | _ => none

/-- Store-level errors (`store.ErrAlreadyExist`, `store.ErrNotExist`). -/
inductive StoreErr where
  | errAlreadyExist
  | errNotExist
deriving DecidableEq, Repr

/-- The sandbox store: ID-keyed entity map plus the trunc-index ID set. -/
structure Store (α : Type) where
  sandboxes : List (String × α)
  idIndex : List String

/-- `Store.Add`: fails with `AlreadyExist` when the full ID is present,
otherwise inserts into both the ID map and the prefix index. -/
def Store.add {α : Type} (s : Store α) (id : String) (sb : α) : Except StoreErr (Store α) :=
  if (mapLookup s.sandboxes id).isSome then
    Except.error StoreErr.errAlreadyExist
  else
    Except.ok ⟨(id, sb) :: s.sandboxes, id :: s.idIndex⟩

/-- `Store.Get`: resolves `id` through the trunc index (a failed resolution is
surfaced as `store.ErrNotExist`), then reads the entity map. -/
def Store.get {α : Type} (s : Store α) (idOrPfx : String) : Except StoreErr α :=
  match truncGet s.idIndex idOrPfx with
  | none => Except.error StoreErr.errNotExist
  | some id =>
    match mapLookup s.sandboxes id with
    | some sb => Except.ok sb
    | none => Except.error StoreErr.errNotExist

/-- `Store.Delete`: resolves through the trunc index; on failure it simply
returns (the Go function has no error result at all), otherwise removes the
resolved full ID from both the index and the map. -/
def Store.delete {α : Type} (s : Store α) (idOrPfx : String) : Store α :=
  match truncGet s.idIndex idOrPfx with
  | none => s
  | some id => ⟨mapDelete s.sandboxes id, s.idIndex.filter (fun i => i ≠ id)⟩

/-- Store well-formedness: distinct index entries, distinct map keys, and the
index registers exactly the map's keys (maintained by `Add`/`Delete`). -/
def Store.wf {α : Type} (s : Store α) : Prop :=
  s.idIndex.Nodup ∧ (s.sandboxes.map Prod.fst).Nodup ∧
    (∀ i ∈ s.idIndex, i ∈ s.sandboxes.map Prod.fst) ∧
    (∀ i ∈ s.sandboxes.map Prod.fst, i ∈ s.idIndex)

/-! ## Process args (`setOCIProcessArgs`)

`config.GetCommand()` is a Go slice that the source distinguishes between nil
and empty (`len(command) == 0` vs `command == nil`), so it is embedded as
`Option (List String)`; `args` is only length-tested. -/

/-- The image config fields used by command resolution. -/
structure ImageConfig where
  Entrypoint : List String
  Cmd : List String
  Env : List String
  WorkingDir : String
deriving DecidableEq, Repr

/-- `setOCIProcessArgs`: computes the process argv or fails with
"no command specified". -/
def setOCIProcessArgs (command : Option (List String)) (args : List String)
    (imageConfig : ImageConfig) : Except String (List String) :=
  let resolved :=
    if (command.getD []).length = 0 then
      let args' := if args.length = 0 then imageConfig.Cmd else args
      let command' := if command.isNone then imageConfig.Entrypoint else command.getD []
      (command', args')
    else (command.getD [], args)
  if resolved.1.length = 0 ∧ resolved.2.length = 0 then
    Except.error "no command specified"
  else
    Except.ok (resolved.1 ++ resolved.2)

/-- The claim's command-resolution rule, written from the spec's words: argv =
(explicit command if non-empty, else image entrypoint) ++ (explicit args if
non-empty, else image default args, the latter only when no explicit command
was given); fails when both resolve empty. -/
def claimProcessArgs (command : Option (List String)) (args : List String)
    (imageConfig : ImageConfig) : Except String (List String) :=
  let cmd := if (command.getD []) ≠ [] then command.getD [] else imageConfig.Entrypoint
  let a :=
    if args ≠ [] then args
    else if (command.getD []) = [] then imageConfig.Cmd
    else []
  if cmd = [] ∧ a = [] then Except.error "no command specified"
  else Except.ok (cmd ++ a)

/-! ## Environment (`addImageEnvs` and the caller-env loop)

The external generator stores the environment as `[]string` entries of the
form `key=value`; `AddProcessEnv` replaces the first entry matching
`key ++ "="` in place, else appends. -/

/-- `generate.Generator.AddProcessEnv name value`: replace the first entry
whose text starts with `name ++ "="`, else append `name ++ "=" ++ value`. -/
def addProcessEnv (env : List String) (name value : String) : List String :=
  match env with
  | [] => [name ++ "=" ++ value]
  | e :: rest =>
    if goHasPfx e (name ++ "=") then (name ++ "=" ++ value) :: rest
    else e :: addProcessEnv rest name value

/-- The entry a process-environment reader sees for `name`: the first entry
starting with `name ++ "="`. -/
def lookupEnv (env : List String) (name : String) : Option String :=
  env.find? (fun e => goHasPfx e (name ++ "="))

/-- `addImageEnvs`: adds each image env entry, failing on an entry with no
`=` (`strings.SplitN(e, "=", 2)` yields fewer than 2 parts). -/
def addImageEnvs (env : List String) : List String → Except String (List String)
  | [] => Except.ok env
  | e :: rest =>
    match splitEq2 e with
    | none => Except.error ("invalid environment variable " ++ e)
    | some kv => addImageEnvs (addProcessEnv env kv.1 kv.2) rest

/-- The caller-env loop of `generateContainerSpec`:
`for _, e := range config.GetEnvs() { g.AddProcessEnv(e.Key, e.Value) }`. -/
def applyCallerEnvs (env : List String) (envs : List (String × String)) : List String :=
  envs.foldl (fun acc kv => addProcessEnv acc kv.1 kv.2) env

/-- The env portion of `generateContainerSpec`: image envs first, then caller
envs on top. -/
def buildProcessEnv (env0 : List String) (imageEnvs : List String)
    (callerEnvs : List (String × String)) : Except String (List String) :=
  match addImageEnvs env0 imageEnvs with
  | Except.error e => Except.error e
  | Except.ok env => Except.ok (applyCallerEnvs env callerEnvs)

/-- The value of the last caller entry for key `k` (last-write-wins). -/
def lastAssoc : List (String × String) → String → Option String
  | [], _ => none
  | kv :: rest, k =>
    match lastAssoc rest k with
    | some v => some v
    | none => if kv.1 = k then some kv.2 else none

/-- The value of the last well-formed image entry for key `k`. -/
def lastImageVal : List String → String → Option String
  | [], _ => none
  | e :: rest, k =>
    match lastImageVal rest k with
    | some v => some v
    | none =>
      match splitEq2 e with
      | some kv => if kv.1 = k then some kv.2 else none
      | none => none

/-! ## Capabilities (`setOCICapabilities`) -/

/-- `runtime.Capability`: capability add/drop lists from the CRI config. -/
structure Capability where
  addCapabilities : List String
  dropCapabilities : List String
deriving DecidableEq, Repr

/-- Modelled from the spec: `util.InStringSlice` is not under src/; per the
spec's wording the expansion triggers on the entry `ALL` in the list. -/
def inStringSlice (ss : List String) (str : String) : Bool := ss.contains str

/-- `generate.Generator.AddProcessCapability`: add the capability to the
generator's capability set if not present (the external generator keeps its
five capability lists identical and deduplicated under this operation). -/
def addProcessCapability (caps : List String) (c : String) : List String :=
  if caps.contains c then caps else caps ++ [c]

/-- `generate.Generator.DropProcessCapability`: remove every occurrence. -/
def dropProcessCapability (caps : List String) (c : String) : List String :=
  caps.filter (fun x => x ≠ c)

/-- `setOCICapabilities`, over the generator's current capability set `caps0`.
`ociCaps` stands for `getOCICapabilitiesList()` — the host-derived list of all
available capability names (already `CAP_`-prefixed), a collaborator value. -/
def setOCICapabilities (ociCaps : List String) (caps0 : List String)
    (capabilities : Option Capability) : List String :=
  match capabilities with
  | none => caps0
  | some cs =>
    -- Add/drop all capabilities if "ALL" is specified, so that following
    -- individual add/drop can still apply on top.
    let caps1 :=
      if inStringSlice cs.addCapabilities "ALL" then
        ociCaps.foldl addProcessCapability caps0
      else caps0
    let caps2 :=
      if inStringSlice cs.dropCapabilities "ALL" then
        ociCaps.foldl dropProcessCapability caps1
      else caps1
    let caps3 := cs.addCapabilities.foldl
      (fun acc c =>
        if goToUpper c = "ALL" then acc
        else addProcessCapability acc ("CAP_" ++ goToUpper c))
      caps2
    cs.dropCapabilities.foldl
      (fun acc c =>
        if goToUpper c = "ALL" then acc
        else dropProcessCapability acc ("CAP_" ++ goToUpper c))
      caps3

/-! ## Bind mounts (`addOCIBindMounts`, `ensureShared`, `ensureSharedOrSlave`) -/

/-- `mount.Info`: the host mount-table row for a path (`Mountpoint` and the
space-separated `Optional` tags). -/
structure MountInfo where
  Mountpoint : String
  Optional : String
deriving DecidableEq, Repr

/-- `ensureShared`: the mount point holding `path` must carry a `shared:` tag. -/
def ensureShared (path : String)
    (lookupMount : String → Except String MountInfo) : Except String Unit :=
  match lookupMount path with
  | Except.error e => Except.error e
  | Except.ok info =>
    if (goSplitSpace info.Optional).any (fun opt => goHasPfx opt "shared:") then
      Except.ok ()
    else
      Except.error ("path " ++ path ++ " is mounted on " ++ info.Mountpoint ++
        " but it is not a shared mount")

/-- `ensureSharedOrSlave`: the mount point holding `path` must carry a
`shared:` or `master:` tag. -/
def ensureSharedOrSlave (path : String)
    (lookupMount : String → Except String MountInfo) : Except String Unit :=
  match lookupMount path with
  | Except.error e => Except.error e
  | Except.ok info =>
    if (goSplitSpace info.Optional).any
        (fun opt => goHasPfx opt "shared:" || goHasPfx opt "master:") then
      Except.ok ()
    else
      Except.error ("path " ++ path ++ " is mounted on " ++ info.Mountpoint ++
        " but it is not a shared or slave mount")

/-- CRI `runtime.MountPropagation` enum values. -/
def propagationPrivate : Int := 0

/-- `PROPAGATION_HOST_TO_CONTAINER`. -/
def propagationHostToContainer : Int := 1

/-- `PROPAGATION_BIDIRECTIONAL`. -/
def propagationBidirectional : Int := 2

/-- `runtime.Mount`: one CRI mount request. -/
structure CRIMount where
  ContainerPath : String
  HostPath : String
  Readonly : Bool
  SelinuxRelabel : Bool
  Propagation : Int
deriving DecidableEq, Repr

/-- One OCI mount produced by `g.AddBindMount(src, dst, options)`. -/
structure OciMount where
  source : String
  destination : String
  options : List String
deriving DecidableEq, Repr

/-- The slice of the generator state `addOCIBindMounts` reads and writes. -/
structure MountGen where
  rootfsPropagation : String
  mounts : List OciMount
deriving DecidableEq, Repr

/-- The body of `addOCIBindMounts`' per-mount loop.  `resolveSrc` stands for
the host-filesystem steps (`Stat`/`MkdirAll`/`ResolveSymbolicLink`) producing
the resolved host source; `relabel` stands for `label.Relabel`; `lookupMount`
is the host mount-table query. -/
def addOCIBindMount (lookupMount : String → Except String MountInfo)
    (resolveSrc : String → Except String String)
    (relabel : String → Except String Unit)
    (g : MountGen) (m : CRIMount) : Except String MountGen :=
  match resolveSrc m.HostPath with
  | Except.error e => Except.error e
  | Except.ok src =>
    let options := ["rbind"]
    let step : Except String (List String × String) :=
      if m.Propagation = propagationPrivate then
        -- Default root propagation in runc is rprivate: root left untouched.
        Except.ok (options ++ ["rprivate"], g.rootfsPropagation)
      else if m.Propagation = propagationBidirectional then
        match ensureShared src lookupMount with
        | Except.error e => Except.error e
        | Except.ok _ => Except.ok (options ++ ["rshared"], "rshared")
      else if m.Propagation = propagationHostToContainer then
        match ensureSharedOrSlave src lookupMount with
        | Except.error e => Except.error e
        | Except.ok _ =>
          Except.ok (options ++ ["rslave"],
            if g.rootfsPropagation ≠ "rshared" ∧ g.rootfsPropagation ≠ "rslave" then
              "rslave"
            else g.rootfsPropagation)
      else
        -- Unknown propagation mode: warn and fall back to rprivate.
        Except.ok (options ++ ["rprivate"], g.rootfsPropagation)
    match step with
    | Except.error e => Except.error e
    | Except.ok so =>
      let options := so.1 ++ [if m.Readonly then "ro" else "rw"]
      match (if m.SelinuxRelabel then relabel src else Except.ok ()) with
      | Except.error e => Except.error e
      | Except.ok _ =>
        Except.ok ⟨so.2, g.mounts ++ [⟨src, m.ContainerPath, options⟩]⟩

/-- `addOCIBindMounts` over the merged mount list (the cgroups mount the
function first adds via `AddCgroupsMount("ro")` is part of the incoming
generator state and does not interact with the loop). -/
def addOCIBindMounts (lookupMount : String → Except String MountInfo)
    (resolveSrc : String → Except String String)
    (relabel : String → Except String Unit)
    (g : MountGen) : List CRIMount → Except String MountGen
  | [] => Except.ok g
  | m :: rest =>
    match addOCIBindMount lookupMount resolveSrc relabel g m with
    | Except.error e => Except.error e
    | Except.ok g' => addOCIBindMounts lookupMount resolveSrc relabel g' rest

/-! ## Privileged branch of `generateContainerSpec` (lines 349–365) -/

/-- A resolved OCI Linux device node. -/
structure LinuxDevice where
  Path : String
  Major : Int
  Minor : Int
deriving DecidableEq, Repr

/-- `runtime.Device`: one device mapping requested by the CRI config. -/
structure DeviceCfg where
  ContainerPath : String
  HostPath : String
  Permissions : String
deriving DecidableEq, Repr

/-- The slice of the generator state the security branch writes. -/
structure GenSec where
  caps : List String
  devices : List LinuxDevice
  allDevicesAllowed : Bool
  readonlyRestrictionsCleared : Bool
deriving DecidableEq, Repr

/-- Spec-generation errors of the security branch, distinguished by their
construction site in the source. -/
inductive SpecErr where
  | noPrivilegedAllowed
  | devicesMapping (cause : String)
deriving DecidableEq, Repr

/-- `setOCIDevicesPrivileged`: map every host device (skipping the invalid
`0:0` ones) and allow `rwm` access to all devices.  `hostDevices` stands for
the `devices.HostDevices()` collaborator call. -/
def setOCIDevicesPrivileged (hostDevices : Except String (List LinuxDevice))
    (g : GenSec) : Except String GenSec :=
  match hostDevices with
  | Except.error e => Except.error e
  | Except.ok hds =>
    Except.ok { g with
      devices := g.devices ++ hds.filter (fun d => !(d.Major = 0 ∧ d.Minor = 0)),
      allDevicesAllowed := true }

/-- `setOCIPrivileged`: `SetupPrivileged(true)` grants every capability,
`setOCIBindMountsPrivileged` clears the read-only markers, and every host
device is mapped. -/
def setOCIPrivileged (ociCaps : List String)
    (hostDevices : Except String (List LinuxDevice)) (g : GenSec) :
    Except SpecErr GenSec :=
  match setOCIDevicesPrivileged hostDevices
      { g with caps := ociCaps, readonlyRestrictionsCleared := true } with
  | Except.error e => Except.error (SpecErr.devicesMapping e)
  | Except.ok g' => Except.ok g'

/-- `addOCIDevices`: per-device mapping for the non-privileged path.
`resolveDev` stands for `ResolveSymbolicLink` + `devices.DeviceFromPath`. -/
def addOCIDevices (resolveDev : DeviceCfg → Except String LinuxDevice)
    (g : GenSec) : List DeviceCfg → Except String GenSec
  | [] => Except.ok g
  | d :: rest =>
    match resolveDev d with
    | Except.error e => Except.error e
    | Except.ok dev =>
      addOCIDevices resolveDev
        { g with devices := g.devices ++ [{ dev with Path := d.ContainerPath }] } rest

/-- The privileged/non-privileged branch of `generateContainerSpec`, embedded
with the source's guard verbatim: `if privileged { if !privileged { error } }`. -/
def generateSpecSecurity (ociCaps : List String)
    (hostDevices : Except String (List LinuxDevice))
    (resolveDev : DeviceCfg → Except String LinuxDevice)
    (privileged : Bool) (devs : List DeviceCfg)
    (capabilities : Option Capability) (g : GenSec) : Except SpecErr GenSec :=
  if privileged then
    if !privileged then
      Except.error SpecErr.noPrivilegedAllowed
    else
      setOCIPrivileged ociCaps hostDevices g
  else
    match addOCIDevices resolveDev g devs with
    | Except.error e => Except.error (SpecErr.devicesMapping e)
    | Except.ok g' => Except.ok { g' with caps := setOCICapabilities ociCaps g'.caps capabilities }

/-! ## Supporting lemmas -/

theorem sizeSkip_eq_not_sizeOk (s : TerminalSize) :
    (decide (s.Height < 1) || decide (s.Width < 1)) = !sizeOk s := by
  by_cases h1 : 1 ≤ s.Height <;> by_cases h2 : 1 ≤ s.Width <;>
    simp [sizeOk, h1, h2, Nat.lt_iff_add_one_le] <;> omega

theorem resizeLoop_spec (sizes : List TerminalSize) :
    (∀ rest, resizeLoop (sizes.map ChanEvent.recv ++ ChanEvent.closed :: rest) =
      (sizes.filter sizeOk, true)) ∧
    resizeLoop (sizes.map ChanEvent.recv) = (sizes.filter sizeOk, false) := by
  induction sizes with
  | nil => exact ⟨fun rest => rfl, rfl⟩
  | cons s t ih =>
    constructor
    · intro rest
      have h := ih.1 rest
      simp only [List.map_cons, List.cons_append, resizeLoop, List.filter_cons]
      rw [sizeSkip_eq_not_sizeOk]
      cases sizeOk s <;> simp [h]
    · have h := ih.2
      simp only [List.map_cons, resizeLoop, List.filter_cons]
      rw [sizeSkip_eq_not_sizeOk]
      cases sizeOk s <;> simp [h]

theorem mapLookup_isSome_iff {α : Type} (m : List (String × α)) (k : String) :
    (mapLookup m k).isSome = true ↔ k ∈ m.map Prod.fst := by
  induction m with
  | nil => simp [mapLookup]
  | cons kv t ih =>
    by_cases h : kv.1 = k
    · simp [mapLookup, List.find?_cons, h]
    · simp only [mapLookup, Option.isSome_map] at ih ⊢
      simp [List.find?_cons, h, ih, Ne.symm h]

theorem mapLookup_mapDelete {α : Type} (m : List (String × α)) (k : String) :
    mapLookup (mapDelete m k) k = none := by
  induction m with
  | nil => rfl
  | cons kv t ih =>
    by_cases h : kv.1 = k <;>
      simp only [mapDelete, List.filter_cons] at ih ⊢ <;>
      simp [mapLookup, List.find?_cons, h] at ih ⊢

theorem truncGet_eq_some {ids : List String} {p full : String}
    (h : truncGet ids p = some full) :
    ids.filter (fun i => goHasPfx i p) = [full] := by
  unfold truncGet at h
  rcases hf : ids.filter (fun i => goHasPfx i p) with _ | ⟨a, _ | ⟨b, t⟩⟩ <;>
    rw [hf] at h <;> simp_all

theorem strExt {a b : String} (h : a.data = b.data) : a = b := by
  cases a
  cases b
  exact congrArg String.mk h

theorem chPfx_append_self (p t : List Char) : chPfx p (p ++ t) = true := by
  induction p with
  | nil => rfl
  | cons a as ih => simp [chPfx, ih]

theorem goHasPfx_key_self (q v : String) : goHasPfx (q ++ v) q = true := by
  unfold goHasPfx
  rw [String.data_append]
  exact chPfx_append_self _ _

theorem chPfx_sep_inj {c : Char} :
    ∀ (xs ys zs : List Char), c ∉ xs → c ∉ ys →
      chPfx (xs ++ [c]) (ys ++ [c] ++ zs) = true → xs = ys := by
  intro xs
  induction xs with
  | nil =>
    intro ys zs _ hy h
    cases ys with
    | nil => rfl
    | cons y ys' =>
      simp only [List.nil_append, List.cons_append, chPfx, Bool.and_eq_true,
        decide_eq_true_eq] at h
      exact absurd h.1 (by simp at hy; exact hy.1)
  | cons x xs' ih =>
    intro ys zs hx hy h
    cases ys with
    | nil =>
      simp only [List.cons_append, List.nil_append, chPfx, Bool.and_eq_true,
        decide_eq_true_eq] at h
      exact absurd h.1.symm (by simp at hx; exact hx.1)
    | cons y ys' =>
      simp only [List.cons_append, chPfx, Bool.and_eq_true, decide_eq_true_eq] at h
      have hx' : c ∉ xs' := by simp at hx; exact hx.2
      have hy' : c ∉ ys' := by simp at hy; exact hy.2
      have := ih ys' zs hx' hy' h.2
      rw [h.1, this]

theorem chPfx_comparable :
    ∀ (s a b : List Char), chPfx a s = true → chPfx b s = true →
      chPfx a b = true ∨ chPfx b a = true := by
  intro s
  induction s with
  | nil =>
    intro a b ha hb
    cases a with
    | nil => exact Or.inl rfl
    | cons x as => exact absurd ha (by simp [chPfx])
  | cons t ts ih =>
    intro a b ha hb
    cases a with
    | nil => exact Or.inl rfl
    | cons x as =>
      cases b with
      | nil => exact Or.inr rfl
      | cons y bs =>
        simp only [chPfx, Bool.and_eq_true, decide_eq_true_eq] at ha hb ⊢
        rcases ih as bs ha.2 hb.2 with h | h
        · exact Or.inl ⟨ha.1.trans hb.1.symm, h⟩
        · exact Or.inr ⟨hb.1.trans ha.1.symm, h⟩

theorem key_eq_of_both_pfx {n n' : String} (X : List Char)
    (hn : '=' ∉ n.data) (hn' : '=' ∉ n'.data)
    (h1 : chPfx (n.data ++ ['=']) X = true)
    (h2 : chPfx (n'.data ++ ['=']) X = true) : n = n' := by
  rcases chPfx_comparable X _ _ h1 h2 with h | h
  · refine strExt (chPfx_sep_inj n.data n'.data [] hn hn' ?_)
    rw [List.append_nil]
    exact h
  · refine strExt (chPfx_sep_inj n'.data n.data [] hn' hn ?_).symm
    rw [List.append_nil]
    exact h

theorem data_key_sep (n : String) : (n ++ "=").data = n.data ++ ['='] := by
  rw [String.data_append]

theorem goHasPfx_entry_iff {n n' : String} (v' : String)
    (hn : '=' ∉ n.data) (hn' : '=' ∉ n'.data) :
    goHasPfx (n' ++ "=" ++ v') (n ++ "=") = true ↔ n = n' := by
  constructor
  · intro h
    unfold goHasPfx at h
    rw [data_key_sep, String.data_append, data_key_sep] at h
    exact strExt (chPfx_sep_inj n.data n'.data v'.data hn hn' h)
  · rintro rfl
    exact goHasPfx_key_self (n ++ "=") v'

theorem lookupEnv_addProcessEnv_self (env : List String) (n v : String) :
    lookupEnv (addProcessEnv env n v) n = some (n ++ "=" ++ v) := by
  induction env with
  | nil =>
    simp [addProcessEnv, lookupEnv, List.find?_cons, goHasPfx_key_self (n ++ "=") v]
  | cons e rest ih =>
    by_cases hp : goHasPfx e (n ++ "=")
    · simp [addProcessEnv, hp, lookupEnv, List.find?_cons,
        goHasPfx_key_self (n ++ "=") v]
    · simp only [addProcessEnv, hp, Bool.false_eq_true, if_false]
      simpa [lookupEnv, List.find?_cons, hp] using ih

theorem lookupEnv_addProcessEnv_other (env : List String) {n n' : String}
    (v' : String) (hn : '=' ∉ n.data) (hn' : '=' ∉ n'.data) (hne : n ≠ n') :
    lookupEnv (addProcessEnv env n' v') n = lookupEnv env n := by
  have hnew : goHasPfx (n' ++ "=" ++ v') (n ++ "=") = false := by
    rw [Bool.eq_false_iff]
    intro h
    exact hne ((goHasPfx_entry_iff v' hn hn').mp h)
  induction env with
  | nil => simp [addProcessEnv, lookupEnv, List.find?_cons, hnew]
  | cons e rest ih =>
    by_cases hp : goHasPfx e (n' ++ "=")
    · have hold : goHasPfx e (n ++ "=") = false := by
        rw [Bool.eq_false_iff]
        intro h
        refine hne (key_eq_of_both_pfx e.data hn hn' ?_ ?_)
        · have := h
          unfold goHasPfx at this
          rwa [data_key_sep] at this
        · have := hp
          unfold goHasPfx at this
          rwa [data_key_sep] at this
      simp [addProcessEnv, hp, lookupEnv, List.find?_cons, hnew, hold]
    · simp only [addProcessEnv, hp, Bool.false_eq_true, if_false]
      by_cases ho : goHasPfx e (n ++ "=")
      · simp [lookupEnv, List.find?_cons, ho]
      · simp only [lookupEnv, List.find?_cons, ho]
        simpa [lookupEnv] using ih

theorem lookupEnv_applyCallerEnvs (callerEnvs : List (String × String)) :
    ∀ (env : List String) (n : String), '=' ∉ n.data →
      (∀ kv ∈ callerEnvs, '=' ∉ kv.1.data) →
      lookupEnv (applyCallerEnvs env callerEnvs) n =
        (match lastAssoc callerEnvs n with
         | some v => some (n ++ "=" ++ v)
         | none => lookupEnv env n) := by
  induction callerEnvs with
  | nil => intro env n _ _; rfl
  | cons kv rest ih =>
    intro env n hn hc
    have htail := ih (addProcessEnv env kv.1 kv.2) n hn
      (fun x hx => hc x (List.mem_cons_of_mem kv hx))
    simp only [applyCallerEnvs, List.foldl_cons] at htail ⊢
    rw [htail]
    rcases hrest : lastAssoc rest n with _ | v
    · by_cases hk : kv.1 = n
      · subst hk
        simp [lastAssoc, hrest, lookupEnv_addProcessEnv_self]
      · have hk1 : '=' ∉ kv.1.data := hc kv (List.mem_cons_self kv rest)
        rw [lookupEnv_addProcessEnv_other env kv.2 hn hk1 (fun h => hk h.symm)]
        simp [lastAssoc, hrest, hk]
    · simp [lastAssoc, hrest]

theorem splitEq2_key_no_eq {e : String} {kv : String × String}
    (h : splitEq2 e = some kv) : '=' ∉ kv.1.data := by
  unfold splitEq2 at h
  by_cases hc : e.data.contains '='
  · rw [if_pos hc] at h
    cases h
    intro hmem
    have := List.mem_takeWhile_imp hmem
    simp at this
  · rw [if_neg hc] at h
    cases h

theorem lookupEnv_addImageEnvs (imageEnvs : List String) :
    ∀ (env env' : List String) (n : String), '=' ∉ n.data →
      addImageEnvs env imageEnvs = Except.ok env' →
      lookupEnv env' n =
        (match lastImageVal imageEnvs n with
         | some v => some (n ++ "=" ++ v)
         | none => lookupEnv env n) := by
  induction imageEnvs with
  | nil =>
    intro env env' n _ h
    cases h
    rfl
  | cons e rest ih =>
    intro env env' n hn h
    simp only [addImageEnvs] at h
    rcases hs : splitEq2 e with _ | kv
    · rw [hs] at h; cases h
    · rw [hs] at h
      have htail := ih (addProcessEnv env kv.1 kv.2) env' n hn h
      rw [htail]
      rcases hrest : lastImageVal rest n with _ | v
      · have hk1 : '=' ∉ kv.1.data := splitEq2_key_no_eq hs
        by_cases hk : kv.1 = n
        · subst hk
          simp [lastImageVal, hrest, hs, lookupEnv_addProcessEnv_self]
        · rw [lookupEnv_addProcessEnv_other env kv.2 hn hk1 (fun hcontra => hk hcontra.symm)]
          simp [lastImageVal, hrest, hs, hk]
      · simp [lastImageVal, hrest]

theorem addImageEnvs_ok (imageEnvs : List String) :
    ∀ (env : List String), (∀ e ∈ imageEnvs, (splitEq2 e).isSome = true) →
      ∃ env', addImageEnvs env imageEnvs = Except.ok env' := by
  induction imageEnvs with
  | nil => intro env _; exact ⟨env, rfl⟩
  | cons e rest ih =>
    intro env h
    rcases hs : splitEq2 e with _ | kv
    · have := h e (List.mem_cons_self e rest)
      rw [hs] at this
      cases this
    · obtain ⟨env', henv'⟩ := ih (addProcessEnv env kv.1 kv.2)
        (fun x hx => h x (List.mem_cons_of_mem e hx))
      exact ⟨env', by simp [addImageEnvs, hs, henv']⟩

theorem addImageEnvs_error (imageEnvs : List String) :
    ∀ (env : List String), (∃ e ∈ imageEnvs, splitEq2 e = none) →
      ∃ msg, addImageEnvs env imageEnvs = Except.error msg := by
  induction imageEnvs with
  | nil => rintro env ⟨e, he, _⟩; cases he
  | cons e rest ih =>
    rintro env ⟨e', he', hbad⟩
    rcases hs : splitEq2 e with _ | kv
    · exact ⟨"invalid environment variable " ++ e, by simp [addImageEnvs, hs]⟩
    · rcases List.mem_cons.mp he' with rfl | hmem
      · rw [hs] at hbad; cases hbad
      · obtain ⟨msg, hmsg⟩ := ih (addProcessEnv env kv.1 kv.2) ⟨e', hmem, hbad⟩
        exact ⟨msg, by simp [addImageEnvs, hs, hmsg]⟩

theorem mem_addProcessCapability (caps : List String) (a c : String) :
    c ∈ addProcessCapability caps a ↔ c ∈ caps ∨ c = a := by
  by_cases h : caps.contains a
  · have ha : a ∈ caps := by simpa using h
    simp only [addProcessCapability, if_pos h]
    constructor
    · exact Or.inl
    · rintro (hc | rfl)
      · exact hc
      · exact ha
  · have ha : a ∉ caps := by simpa using h
    simp [addProcessCapability, ha]

theorem mem_foldl_addProcessCapability (l acc : List String) (c : String) :
    c ∈ l.foldl addProcessCapability acc ↔ c ∈ acc ∨ c ∈ l := by
  induction l generalizing acc with
  | nil => simp
  | cons a t ih =>
    simp only [List.foldl_cons, ih, mem_addProcessCapability, List.mem_cons]
    tauto

/-! ## Claim theorems -/

/-- C9: for every seccomp profile name and every value of the seccomp-enabled
flag, a privileged container yields no seccomp option and no error, so neither
the unsupported-profile nor the invalid-profile-name failure can occur. -/
theorem seccomp_privileged_never_fails (seccompProf : String) (seccompEnabled : Bool) :
    generateSeccompSpecOpts seccompProf true seccompEnabled = Except.ok none := by
  simp [generateSeccompSpecOpts]

/-- C10: with a nil resize channel, `handleResizing` returns immediately
without spawning the draining goroutine and never invokes the callback. -/
theorem handleResizing_nil_channel :
    handleResizing none = none ∧ resizeCalls none = [] :=
  ⟨rfl, rfl⟩

/-- C5: on a non-nil resize channel, the draining task invokes the callback
exactly once per received size with both dimensions ≥ 1, in arrival order
(the calls are exactly the order-preserving filter of the received sizes),
silently discards every size with a dimension < 1, and terminates exactly when
the caller closes the channel: it has returned on every trace ending in a
close, and is still draining on every trace with no close. -/
theorem handleResizing_drains (sizes : List TerminalSize) (rest : List ChanEvent) :
    handleResizing (some (sizes.map ChanEvent.recv ++ ChanEvent.closed :: rest)) =
      some (sizes.filter sizeOk, true) ∧
    handleResizing (some (sizes.map ChanEvent.recv)) =
      some (sizes.filter sizeOk, false) := by
  refine ⟨?_, ?_⟩
  · simp [handleResizing, (resizeLoop_spec sizes).1 rest]
  · simp [handleResizing, (resizeLoop_spec sizes).2]

/-- C2 counterexample: the claim asserts that for some privileged
configuration the internal consistency check in the privileged branch returns
the invalid-privileged-config error; in the source that guard is
`if privileged { if !privileged { error } }`, which can never fire, so no such
configuration exists. -/
theorem privileged_guard_never_fires :
    ¬ ∃ (ociCaps : List String) (hostDevices : Except String (List LinuxDevice))
        (resolveDev : DeviceCfg → Except String LinuxDevice)
        (devs : List DeviceCfg) (capabilities : Option Capability) (g : GenSec),
      generateSpecSecurity ociCaps hostDevices resolveDev true devs capabilities g =
        Except.error SpecErr.noPrivilegedAllowed := by
  rintro ⟨ociCaps, hostDevices, resolveDev, devs, capabilities, g, h⟩
  simp only [generateSpecSecurity, Bool.not_true, if_true, if_false,
    setOCIPrivileged] at h
  cases hhd : hostDevices with
  | error e => simp [setOCIDevicesPrivileged, hhd] at h
  | ok hds => simp [setOCIDevicesPrivileged, hhd] at h

/-- C2 amended: the guard in the privileged branch is dead code; whenever
privileged mode is requested, spec generation unconditionally takes the
privileged path (all capabilities, cleared read-only restrictions, all host
devices) and never returns the invalid-privileged-config error. -/
theorem privileged_branch_unconditional (ociCaps : List String)
    (hostDevices : Except String (List LinuxDevice))
    (resolveDev : DeviceCfg → Except String LinuxDevice)
    (devs : List DeviceCfg) (capabilities : Option Capability) (g : GenSec)
    (privileged : Bool) (hp : privileged = true) :
    generateSpecSecurity ociCaps hostDevices resolveDev privileged devs capabilities g =
      setOCIPrivileged ociCaps hostDevices g := by
  subst hp
  simp [generateSpecSecurity]

theorem privileged_branch_unconditional_witness :
    (true = true) ∧
    generateSpecSecurity [] (Except.ok []) (fun _ => Except.error "unused") true []
        none ⟨[], [], false, false⟩ =
      setOCIPrivileged [] (Except.ok []) ⟨[], [], false, false⟩ :=
  ⟨rfl, privileged_branch_unconditional [] (Except.ok []) (fun _ => Except.error "unused")
    [] none ⟨[], [], false, false⟩ true rfl⟩

/-- C4 counterexample: with an explicitly-present-but-empty command, empty
args, image entrypoint `["/bin/sh"]` and image cmd `["-c","true"]`, the source
produces argv `["-c","true"]` (the `command == nil` test fails, so the image
entrypoint is not applied), while the claim's resolution rule produces
`["/bin/sh","-c","true"]`. -/
theorem setOCIProcessArgs_empty_command_counterexample :
    setOCIProcessArgs (some []) [] ⟨["/bin/sh"], ["-c", "true"], [], ""⟩ =
      Except.ok ["-c", "true"] ∧
    claimProcessArgs (some []) [] ⟨["/bin/sh"], ["-c", "true"], [], ""⟩ =
      Except.ok ["/bin/sh", "-c", "true"] ∧
    setOCIProcessArgs (some []) [] ⟨["/bin/sh"], ["-c", "true"], [], ""⟩ ≠
      claimProcessArgs (some []) [] ⟨["/bin/sh"], ["-c", "true"], [], ""⟩ := by
  refine ⟨rfl, rfl, ?_⟩
  intro h
  simp [setOCIProcessArgs, claimProcessArgs] at h

/-- C4 amended: the effective argv equals (the explicit command if non-empty;
else the image entrypoint, but only when the command is absent (nil) — an
explicitly-present empty command suppresses the entrypoint) concatenated with
(the explicit args if non-empty, else the image default args when the explicit
command is empty); spec generation fails with the no-command-specified error
exactly when both components resolve empty.  In particular an explicit
non-empty command with no args yields exactly that command. -/
theorem setOCIProcessArgs_resolution (command : Option (List String))
    (args : List String) (imageConfig : ImageConfig) :
    setOCIProcessArgs command args imageConfig =
      (let cmd : List String :=
        match command with
        | none => imageConfig.Entrypoint
        | some [] => []
        | some c => c
      let a : List String :=
        if args ≠ [] then args
        else if command.getD [] = [] then imageConfig.Cmd
        else []
      if cmd = [] ∧ a = [] then Except.error "no command specified"
      else Except.ok (cmd ++ a)) := by
  cases command with
  | none =>
    cases args <;> simp [setOCIProcessArgs, List.length_eq_zero]
  | some c =>
    cases c <;> cases args <;>
      simp [setOCIProcessArgs, List.length_eq_zero]

/-- C1: `Get(idOrPrefix)` on a well-formed store returns the stored entity
whose full ID has the argument as a prefix when exactly one stored ID matches,
and fails with the same not-found error both when zero stored IDs match and
when two or more match, so absence and ambiguity are indistinguishable to the
caller. -/
theorem store_get_resolution (α : Type) (s : Store α) (hwf : s.wf) (p : String) :
    (s.idIndex.filter (fun i => goHasPfx i p) = [] →
      s.get p = Except.error StoreErr.errNotExist) ∧
    (∀ full, s.idIndex.filter (fun i => goHasPfx i p) = [full] →
      ∃ e, mapLookup s.sandboxes full = some e ∧ s.get p = Except.ok e) ∧
    (2 ≤ (s.idIndex.filter (fun i => goHasPfx i p)).length →
      s.get p = Except.error StoreErr.errNotExist) := by
  refine ⟨?_, ?_, ?_⟩
  · intro h
    simp [Store.get, truncGet, h]
  · intro full h
    have hmem : full ∈ s.idIndex := by
      have hin : full ∈ s.idIndex.filter (fun i => goHasPfx i p) := by
        rw [h]; exact List.mem_singleton.mpr rfl
      exact (List.mem_filter.mp hin).1
    have hkey : full ∈ s.sandboxes.map Prod.fst := hwf.2.2.1 full hmem
    have hsome : (mapLookup s.sandboxes full).isSome = true :=
      (mapLookup_isSome_iff s.sandboxes full).mpr hkey
    obtain ⟨e, he⟩ := Option.isSome_iff_exists.mp hsome
    exact ⟨e, he, by simp [Store.get, truncGet, h, he]⟩
  · intro h
    rcases hf : s.idIndex.filter (fun i => goHasPfx i p) with _ | ⟨a, _ | ⟨b, t⟩⟩
    · simp [Store.get, truncGet, hf]
    · rw [hf] at h
      simp at h
    · simp [Store.get, truncGet, hf]

theorem store_get_resolution_witness :
    (Store.wf (⟨[("abc", 0), ("abd", 1)], ["abc", "abd"]⟩ : Store Nat)) ∧
    Store.get (⟨[("abc", 0), ("abd", 1)], ["abc", "abd"]⟩ : Store Nat) "ab" =
      Except.error StoreErr.errNotExist :=
  ⟨by unfold Store.wf; decide,
   (store_get_resolution Nat ⟨[("abc", 0), ("abd", 1)], ["abc", "abd"]⟩
      (by unfold Store.wf; decide) "ab").2.2 (by decide)⟩

/-- C8: `Delete(idOrPrefix)` removes a resolving entity from both the ID map
and the prefix index, is a no-op (the Go function has no error result at all)
when the identifier does not resolve, and deleting the same identifier twice
equals deleting it once. -/
theorem store_delete_idempotent (α : Type) (s : Store α) (x : String) :
    (truncGet s.idIndex x = none → s.delete x = s) ∧
    (∀ full, truncGet s.idIndex x = some full →
      full ∉ (s.delete x).idIndex ∧
        mapLookup (s.delete x).sandboxes full = none) ∧
    (s.delete x).delete x = s.delete x := by
  refine ⟨?_, ?_, ?_⟩
  · intro h
    simp [Store.delete, h]
  · intro full h
    simp only [Store.delete, h]
    refine ⟨?_, mapLookup_mapDelete s.sandboxes full⟩
    intro hmem
    have := (List.mem_filter.mp hmem).2
    simp at this
  · rcases hg : truncGet s.idIndex x with _ | full
    · simp [Store.delete, hg]
    · have hfil := truncGet_eq_some hg
      have hcomm : (s.idIndex.filter (fun i => i ≠ full)).filter (fun i => goHasPfx i x)
          = (s.idIndex.filter (fun i => goHasPfx i x)).filter (fun i => i ≠ full) := by
        rw [List.filter_filter, List.filter_filter]
        congr 1
        funext i
        exact Bool.and_comm _ _
      have h2 : truncGet (s.idIndex.filter (fun i => i ≠ full)) x = none := by
        unfold truncGet
        rw [hcomm, hfil]
        simp
      have hs' : s.delete x =
          ⟨mapDelete s.sandboxes full, s.idIndex.filter (fun i => i ≠ full)⟩ := by
        simp [Store.delete, hg]
      rw [hs']
      unfold Store.delete
      rw [h2]

theorem store_delete_idempotent_witness :
    ((⟨[("abc", 0)], ["abc"]⟩ : Store Nat).delete "zz" = ⟨[("abc", 0)], ["abc"]⟩) ∧
    ("abc" ∉ ((⟨[("abc", 0)], ["abc"]⟩ : Store Nat).delete "abc").idIndex ∧
      mapLookup ((⟨[("abc", 0)], ["abc"]⟩ : Store Nat).delete "abc").sandboxes "abc" =
        none) :=
  ⟨(store_delete_idempotent Nat ⟨[("abc", 0)], ["abc"]⟩ "zz").1 (by decide),
   (store_delete_idempotent Nat ⟨[("abc", 0)], ["abc"]⟩ "abc").2.1 "abc" (by decide)⟩

/-- C6: with add-list `["ALL"]` and drop-list `["CHOWN"]`, the `ALL` entry
expands to adding every available capability before the remaining individual
entries are processed, and the individual drop entry is applied afterwards
with the `CAP_` prefix added, so the resulting capability set is every
available capability except `CAP_CHOWN` (given that the generator's incoming
capabilities are themselves available ones). -/
theorem setOCICapabilities_all_minus_chown (ociCaps caps0 : List String)
    (hsub : ∀ c ∈ caps0, c ∈ ociCaps) (c : String) :
    c ∈ setOCICapabilities ociCaps caps0 (some ⟨["ALL"], ["CHOWN"]⟩) ↔
      (c ∈ ociCaps ∧ c ≠ "CAP_CHOWN") := by
  have h1 : inStringSlice ["ALL"] "ALL" = true := by decide
  have h2 : inStringSlice ["CHOWN"] "ALL" = false := by decide
  have hA : goToUpper "ALL" = "ALL" := by decide
  have hC : goToUpper "CHOWN" = "CHOWN" := by decide
  have hCA : ¬(("CHOWN" : String) = "ALL") := by decide
  simp only [setOCICapabilities, h1, h2, if_true, if_false, Bool.false_eq_true,
    List.foldl_cons, List.foldl_nil, hA, hC, if_pos rfl, if_neg hCA,
    dropProcessCapability]
  simp only [List.mem_filter, mem_foldl_addProcessCapability, decide_eq_true_eq]
  constructor
  · rintro ⟨hm | hm, hne⟩
    · exact ⟨hsub c hm, hne⟩
    · exact ⟨hm, hne⟩
  · rintro ⟨hm, hne⟩
    exact ⟨Or.inr hm, hne⟩

theorem setOCICapabilities_all_minus_chown_witness :
    (∀ c ∈ (["CAP_SYS_ADMIN"] : List String),
      c ∈ ["CAP_CHOWN", "CAP_KILL", "CAP_SYS_ADMIN"]) ∧
    ("CAP_KILL" ∈ setOCICapabilities ["CAP_CHOWN", "CAP_KILL", "CAP_SYS_ADMIN"]
        ["CAP_SYS_ADMIN"] (some ⟨["ALL"], ["CHOWN"]⟩) ↔
      ("CAP_KILL" ∈ ["CAP_CHOWN", "CAP_KILL", "CAP_SYS_ADMIN"] ∧
        ("CAP_KILL" : String) ≠ "CAP_CHOWN")) :=
  ⟨by decide,
   setOCICapabilities_all_minus_chown ["CAP_CHOWN", "CAP_KILL", "CAP_SYS_ADMIN"]
     ["CAP_SYS_ADMIN"] (by decide) "CAP_KILL"⟩

/-- C3: for a mount whose host source resolves to `src`: private propagation
yields low-level option `rprivate` and leaves the container root propagation
untouched; bidirectional propagation requires the resolved source to pass the
shared-mount check against the host mount table (failing with that check's
error otherwise), yields `rshared` and sets root propagation to `rshared`;
host-to-container requires the shared-or-slave check (same failure behavior),
yields `rslave` and sets root propagation to `rslave` unless it is already
`rshared` or `rslave`; any unknown propagation value falls back to `rprivate`
(with only a warning, no error) and leaves root propagation untouched. -/
theorem addOCIBindMount_propagation
    (lookupMount : String → Except String MountInfo)
    (resolveSrc : String → Except String String)
    (relabel : String → Except String Unit)
    (g : MountGen) (m : CRIMount) (src : String)
    (hsrc : resolveSrc m.HostPath = Except.ok src)
    (hrel : (if m.SelinuxRelabel then relabel src else Except.ok ()) = Except.ok ()) :
    (m.Propagation = propagationPrivate →
      addOCIBindMount lookupMount resolveSrc relabel g m =
        Except.ok ⟨g.rootfsPropagation,
          g.mounts ++ [⟨src, m.ContainerPath,
            ["rbind", "rprivate", if m.Readonly then "ro" else "rw"]⟩]⟩) ∧
    (m.Propagation = propagationBidirectional →
      (ensureShared src lookupMount = Except.ok () →
        addOCIBindMount lookupMount resolveSrc relabel g m =
          Except.ok ⟨"rshared",
            g.mounts ++ [⟨src, m.ContainerPath,
              ["rbind", "rshared", if m.Readonly then "ro" else "rw"]⟩]⟩) ∧
      (∀ e, ensureShared src lookupMount = Except.error e →
        addOCIBindMount lookupMount resolveSrc relabel g m = Except.error e)) ∧
    (m.Propagation = propagationHostToContainer →
      (ensureSharedOrSlave src lookupMount = Except.ok () →
        addOCIBindMount lookupMount resolveSrc relabel g m =
          Except.ok ⟨(if g.rootfsPropagation ≠ "rshared" ∧ g.rootfsPropagation ≠ "rslave"
              then "rslave" else g.rootfsPropagation),
            g.mounts ++ [⟨src, m.ContainerPath,
              ["rbind", "rslave", if m.Readonly then "ro" else "rw"]⟩]⟩) ∧
      (∀ e, ensureSharedOrSlave src lookupMount = Except.error e →
        addOCIBindMount lookupMount resolveSrc relabel g m = Except.error e)) ∧
    (m.Propagation ≠ propagationPrivate →
      m.Propagation ≠ propagationBidirectional →
      m.Propagation ≠ propagationHostToContainer →
      addOCIBindMount lookupMount resolveSrc relabel g m =
        Except.ok ⟨g.rootfsPropagation,
          g.mounts ++ [⟨src, m.ContainerPath,
            ["rbind", "rprivate", if m.Readonly then "ro" else "rw"]⟩]⟩) := by
  refine ⟨?_, ?_, ?_, ?_⟩
  · intro hp
    simp [addOCIBindMount, hsrc, hp, propagationPrivate, hrel]
  · intro hp
    constructor
    · intro hs
      simp [addOCIBindMount, hsrc, hp, propagationPrivate, propagationBidirectional,
        hs, hrel]
    · intro e hs
      simp [addOCIBindMount, hsrc, hp, propagationPrivate, propagationBidirectional, hs]
  · intro hp
    constructor
    · intro hs
      simp [addOCIBindMount, hsrc, hp, propagationPrivate, propagationBidirectional,
        propagationHostToContainer, hs, hrel]
    · intro e hs
      simp [addOCIBindMount, hsrc, hp, propagationPrivate, propagationBidirectional,
        propagationHostToContainer, hs]
  · intro h0 h2 h1
    simp [addOCIBindMount, hsrc, h0, h1, h2, hrel]

theorem addOCIBindMount_propagation_witness :
    ((fun (p : String) => (Except.ok p : Except String String)) "/hsrc" =
      Except.ok "/hsrc") ∧
    (ensureShared "/hsrc" (fun _ => Except.ok ⟨"/mnt", "shared:1"⟩) = Except.ok ()) ∧
    addOCIBindMount (fun _ => Except.ok ⟨"/mnt", "shared:1"⟩)
        (fun p => Except.ok p) (fun _ => Except.ok ())
        ⟨"", []⟩ ⟨"/cdst", "/hsrc", false, false, 2⟩ =
      Except.ok ⟨"rshared", [⟨"/hsrc", "/cdst", ["rbind", "rshared", "rw"]⟩]⟩ :=
  ⟨rfl, by rfl,
   ((addOCIBindMount_propagation (fun _ => Except.ok ⟨"/mnt", "shared:1"⟩)
        (fun p => Except.ok p) (fun _ => Except.ok ())
        ⟨"", []⟩ ⟨"/cdst", "/hsrc", false, false, 2⟩ "/hsrc" rfl rfl).2.1
      rfl).1 (by rfl)⟩

/-- C7: the effective process environment applies image-declared variables
first and caller-declared variables after, so for any ('='-free) variable name
the visible value is the last caller value when the caller sets it
(last-write-wins over any image value), else the last image value, else
whatever the incoming environment held (caller-only variables are added);
and an image env entry not of the form `key=value` makes spec generation
fail. -/
theorem buildProcessEnv_override (env0 imageEnvs : List String)
    (callerEnvs : List (String × String)) (n : String)
    (hn : '=' ∉ n.data)
    (hc : ∀ kv ∈ callerEnvs, '=' ∉ kv.1.data) :
    ((∀ e ∈ imageEnvs, (splitEq2 e).isSome = true) →
      ∃ env', buildProcessEnv env0 imageEnvs callerEnvs = Except.ok env' ∧
        lookupEnv env' n =
          (match lastAssoc callerEnvs n with
           | some v => some (n ++ "=" ++ v)
           | none =>
             match lastImageVal imageEnvs n with
             | some v => some (n ++ "=" ++ v)
             | none => lookupEnv env0 n)) ∧
    ((∃ e ∈ imageEnvs, splitEq2 e = none) →
      ∃ msg, buildProcessEnv env0 imageEnvs callerEnvs = Except.error msg) := by
  constructor
  · intro hwfm
    obtain ⟨envI, hI⟩ := addImageEnvs_ok imageEnvs env0 hwfm
    refine ⟨applyCallerEnvs envI callerEnvs, by simp [buildProcessEnv, hI], ?_⟩
    rw [lookupEnv_applyCallerEnvs callerEnvs envI n hn hc]
    rcases lastAssoc callerEnvs n with _ | v
    · exact lookupEnv_addImageEnvs imageEnvs env0 envI n hn hI
    · rfl
  · intro hbad
    obtain ⟨msg, hmsg⟩ := addImageEnvs_error imageEnvs env0 hbad
    exact ⟨msg, by simp [buildProcessEnv, hmsg]⟩

theorem buildProcessEnv_override_witness :
    ('=' ∉ ("A" : String).data) ∧
    (∀ kv ∈ ([("A", "2"), ("B", "3")] : List (String × String)), '=' ∉ kv.1.data) ∧
    (∀ e ∈ (["A=1"] : List String), (splitEq2 e).isSome = true) ∧
    (∃ env', buildProcessEnv [] ["A=1"] [("A", "2"), ("B", "3")] = Except.ok env' ∧
      lookupEnv env' "A" =
        (match lastAssoc [("A", "2"), ("B", "3")] "A" with
         | some v => some ("A" ++ "=" ++ v)
         | none =>
           match lastImageVal ["A=1"] "A" with
           | some v => some ("A" ++ "=" ++ v)
           | none => lookupEnv [] "A")) :=
  ⟨by decide, by decide, by decide,
   (buildProcessEnv_override [] ["A=1"] [("A", "2"), ("B", "3")] "A"
      (by decide) (by decide)).1 (by decide)⟩

end CriModel
